import Mathlib

/-!
Verification of the `sim::Vec2` 2D vector type from
`src/include/math/vec2.hpp`.

The C++ type stores two `double` fields `x`, `y`.  We embed it over the
real numbers: every arithmetic, comparison and geometry operation of the
header is translated literally, field expression by field expression.
`std::sqrt` becomes `Real.sqrt`, and the defaulted C++20 comparison
operators (`<=>`, `==`) become the member-wise lexicographic comparison
and the componentwise equality that the compiler synthesizes for a
struct with fields `x` then `y`.
-/

namespace sim

/-- `struct Vec2 { double x{0.0}; double y{0.0}; };` -/
structure Vec2 where
  x : ℝ
  y : ℝ

/-- `Vec2 operator+(const Vec2& o) const { return Vec2{x + o.x, y + o.y}; }` -/
def Vec2.add (a o : Vec2) : Vec2 := ⟨a.x + o.x, a.y + o.y⟩

/-- `Vec2 operator-(const Vec2& o) const { return Vec2{x - o.x, y - o.y}; }` -/
def Vec2.sub (a o : Vec2) : Vec2 := ⟨a.x - o.x, a.y - o.y⟩

/-- `Vec2 operator*(Scalar auto s) const { return Vec2{x * s, y * s}; }` -/
def Vec2.smul (a : Vec2) (s : ℝ) : Vec2 := ⟨a.x * s, a.y * s⟩

/-- `Vec2 operator/(Scalar auto s) const { return Vec2{x / s, y / s}; }` -/
noncomputable def Vec2.sdiv (a : Vec2) (s : ℝ) : Vec2 := ⟨a.x / s, a.y / s⟩

/-- `Vec2 operator-() const { return Vec2{-x, -y}; }` -/
def Vec2.neg (a : Vec2) : Vec2 := ⟨-a.x, -a.y⟩

/-- Free function `operator*(Scalar auto s, const Vec2& v)`:
`return Vec2{v.x * s, v.y * s};` -/
def smulLeft (s : ℝ) (v : Vec2) : Vec2 := ⟨v.x * s, v.y * s⟩

/-- `operator+=`: `x += o.x; y += o.y; return *this;`.
The pair is (receiver state after the call, returned reference value);
the two field updates are sequenced as in the source. -/
def Vec2.addAssign (a o : Vec2) : Vec2 × Vec2 :=
  let a1 : Vec2 := ⟨a.x + o.x, a.y⟩
  let a2 : Vec2 := ⟨a1.x, a1.y + o.y⟩
  (a2, a2)

/-- `operator-=`: `x -= o.x; y -= o.y; return *this;` -/
def Vec2.subAssign (a o : Vec2) : Vec2 × Vec2 :=
  let a1 : Vec2 := ⟨a.x - o.x, a.y⟩
  let a2 : Vec2 := ⟨a1.x, a1.y - o.y⟩
  (a2, a2)

/-- `operator*=`: `x *= s; y *= s; return *this;` -/
def Vec2.mulAssign (a : Vec2) (s : ℝ) : Vec2 × Vec2 :=
  let a1 : Vec2 := ⟨a.x * s, a.y⟩
  let a2 : Vec2 := ⟨a1.x, a1.y * s⟩
  (a2, a2)

/-- `operator/=`: `x /= s; y /= s; return *this;` -/
noncomputable def Vec2.divAssign (a : Vec2) (s : ℝ) : Vec2 × Vec2 :=
  let a1 : Vec2 := ⟨a.x / s, a.y⟩
  let a2 : Vec2 := ⟨a1.x, a1.y / s⟩
  (a2, a2)

/-- The defaulted `operator<=>` compares the fields in declaration order:
`x` first, then `y` as a tie-break.  On non-NaN doubles (a fortiori on
our real model) the synthesized comparison is lexicographic. -/
noncomputable def Vec2.spaceship (a o : Vec2) : Ordering :=
  if a.x < o.x then Ordering.lt
  else if o.x < a.x then Ordering.gt
  else if a.y < o.y then Ordering.lt
  else if o.y < a.y then Ordering.gt
  else Ordering.eq

/-- `a < b` is `(a <=> b) < 0`. -/
def Vec2.lt (a o : Vec2) : Prop := Vec2.spaceship a o = Ordering.lt

/-- `a <= b` is `(a <=> b) <= 0`. -/
def Vec2.le (a o : Vec2) : Prop := Vec2.spaceship a o ≠ Ordering.gt

/-- `a > b` is `(a <=> b) > 0`. -/
def Vec2.gt (a o : Vec2) : Prop := Vec2.spaceship a o = Ordering.gt

/-- `a >= b` is `(a <=> b) >= 0`. -/
def Vec2.ge (a o : Vec2) : Prop := Vec2.spaceship a o ≠ Ordering.lt

/-- The defaulted `operator==` compares the fields componentwise. -/
def Vec2.eqOp (a o : Vec2) : Prop := a.x = o.x ∧ a.y = o.y

/-- `double dot(const Vec2& o) const { return x * o.x + y * o.y; }` -/
def Vec2.dot (a o : Vec2) : ℝ := a.x * o.x + a.y * o.y

/-- `double cross(const Vec2& o) const { return x * o.y - y * o.x; }` -/
def Vec2.cross (a o : Vec2) : ℝ := a.x * o.y - a.y * o.x

/-- `double length() const { return std::sqrt(x * x + y * y); }` -/
noncomputable def Vec2.length (a : Vec2) : ℝ := Real.sqrt (a.x * a.x + a.y * a.y)

/-- `double length_sq() const { return x * x + y * y; }` -/
def Vec2.length_sq (a : Vec2) : ℝ := a.x * a.x + a.y * a.y

/-- `normalized()`: `const double len = length(); return len > 0.0 ? *this / len : Vec2{};` -/
noncomputable def Vec2.normalized (a : Vec2) : Vec2 :=
  if Vec2.length a > 0 then Vec2.sdiv a (Vec2.length a) else ⟨0, 0⟩

/-- `double distance_to(const Vec2& o) const { return (*this - o).length(); }` -/
noncomputable def Vec2.distance_to (a o : Vec2) : ℝ := Vec2.length (Vec2.sub a o)

/-- `double distance_sq_to(const Vec2& o) const { return (*this - o).length_sq(); }` -/
def Vec2.distance_sq_to (a o : Vec2) : ℝ := Vec2.length_sq (Vec2.sub a o)

/-- `Vec2 perpendicular() const { return Vec2{-y, x}; }` -/
def Vec2.perpendicular (a : Vec2) : Vec2 := ⟨-a.y, a.x⟩

/-- `Vec2 lerp(const Vec2& o, double t) const { return *this + (o - *this) * t; }` -/
def Vec2.lerp (a o : Vec2) (t : ℝ) : Vec2 := Vec2.add a (Vec2.smul (Vec2.sub o a) t)

-- ───────────────────────────────────────────────────────────────
-- Basic lemmas shared between the claims
-- ───────────────────────────────────────────────────────────────

theorem Vec2.ext_iff {a b : Vec2} : a = b ↔ a.x = b.x ∧ a.y = b.y := by
  constructor
  · intro h; rw [h]; exact ⟨rfl, rfl⟩
  · intro h
    cases a; cases b
    simp only at h
    rw [h.1, h.2]

theorem Vec2.length_nonneg (a : Vec2) : 0 ≤ Vec2.length a := Real.sqrt_nonneg _

theorem Vec2.length_sq_nonneg (a : Vec2) : 0 ≤ Vec2.length_sq a := by
  unfold Vec2.length_sq
  nlinarith [sq_nonneg a.x, sq_nonneg a.y]

-- ───────────────────────────────────────────────────────────────
-- Claims
-- ───────────────────────────────────────────────────────────────

/-- C3: `lerp` computes `this + (other − this) * t` for every `t`
(no clamping or rejection), and at the endpoints `a.lerp(b, 0) = a`
and `a.lerp(b, 1) = b`. -/
theorem vec2_lerp_correct :
    ∀ a b : Vec2, (∀ t : ℝ, Vec2.lerp a b t = Vec2.add a (Vec2.smul (Vec2.sub b a) t)) ∧
      Vec2.lerp a b 0 = a ∧ Vec2.lerp a b 1 = b := by
  intro a b
  refine ⟨fun t => rfl, ?_, ?_⟩ <;>
    · rw [Vec2.ext_iff]
      unfold Vec2.lerp Vec2.add Vec2.smul Vec2.sub
      constructor <;> ring

/-- C4: the member `operator*(Scalar)` and the free
`operator*(Scalar, Vec2)` are both provided and produce identical
results: `v * s = s * v` componentwise. -/
theorem vec2_scalar_mul_commutes :
    ∀ (v : Vec2) (s : ℝ), Vec2.smul v s = smulLeft s v := by
  intro v s
  rfl

/-- C6: `v + (-v)` and `v - v` are both the zero vector, with `+`, binary
`-` and unary `-` the componentwise operators of the header. -/
theorem vec2_add_neg_self :
    ∀ v : Vec2, Vec2.add v (Vec2.neg v) = Vec2.mk 0 0 ∧ Vec2.sub v v = Vec2.mk 0 0 := by
  intro v
  constructor <;>
    · rw [Vec2.ext_iff]
      simp only [Vec2.add, Vec2.neg, Vec2.sub]
      constructor <;> ring

/-- C7: `perpendicular()` returns `(−y, x)`, is exactly orthogonal to the
input (`perpendicular().dot(v) = 0`), and preserves the length. -/
theorem vec2_perpendicular_correct :
    ∀ v : Vec2, Vec2.perpendicular v = Vec2.mk (-v.y) v.x ∧
      Vec2.dot (Vec2.perpendicular v) v = 0 ∧
      Vec2.length (Vec2.perpendicular v) = Vec2.length v := by
  intro v
  refine ⟨rfl, ?_, ?_⟩
  · unfold Vec2.dot Vec2.perpendicular
    ring
  · unfold Vec2.length Vec2.perpendicular
    rw [show -v.y * -v.y + v.x * v.x = v.x * v.x + v.y * v.y by ring]

theorem ordering_ne_gt_iff (o : Ordering) :
    (o ≠ Ordering.gt) ↔ (o = Ordering.lt ∨ o = Ordering.eq) := by
  cases o <;> decide

theorem Vec2.lt_iff (a b : Vec2) :
    Vec2.lt a b ↔ (a.x < b.x ∨ (a.x = b.x ∧ a.y < b.y)) := by
  unfold Vec2.lt Vec2.spaceship
  split_ifs with h1 h2 h3 h4
  · exact iff_of_true rfl (Or.inl h1)
  · refine iff_of_false (by decide) ?_
    rintro (h | ⟨hx, _⟩)
    · exact h1 h
    · rw [hx] at h2
      exact lt_irrefl _ h2
  · exact iff_of_true rfl (Or.inr ⟨le_antisymm (not_lt.mp h2) (not_lt.mp h1), h3⟩)
  · refine iff_of_false (by decide) ?_
    rintro (h | ⟨_, hy⟩)
    · exact h1 h
    · exact h3 hy
  · refine iff_of_false (by decide) ?_
    rintro (h | ⟨_, hy⟩)
    · exact h1 h
    · exact h3 hy

theorem Vec2.gt_iff (a b : Vec2) : Vec2.gt a b ↔ Vec2.lt b a := by
  rw [Vec2.lt_iff]
  unfold Vec2.gt Vec2.spaceship
  split_ifs with h1 h2 h3 h4
  · refine iff_of_false (by decide) ?_
    rintro (h | ⟨hx, _⟩)
    · exact lt_asymm h1 h
    · rw [hx] at h1
      exact lt_irrefl _ h1
  · exact iff_of_true rfl (Or.inl h2)
  · refine iff_of_false (by decide) ?_
    rintro (h | ⟨_, hy⟩)
    · exact h2 h
    · exact lt_asymm h3 hy
  · exact iff_of_true rfl (Or.inr ⟨le_antisymm (not_lt.mp h1) (not_lt.mp h2), h4⟩)
  · refine iff_of_false (by decide) ?_
    rintro (h | ⟨_, hy⟩)
    · exact h2 h
    · exact h4 hy

theorem Vec2.spaceship_eq_iff (a b : Vec2) :
    Vec2.spaceship a b = Ordering.eq ↔ a = b := by
  unfold Vec2.spaceship
  split_ifs with h1 h2 h3 h4
  · refine iff_of_false (by decide) ?_
    intro h
    rw [h] at h1
    exact lt_irrefl _ h1
  · refine iff_of_false (by decide) ?_
    intro h
    rw [h] at h2
    exact lt_irrefl _ h2
  · refine iff_of_false (by decide) ?_
    intro h
    rw [h] at h3
    exact lt_irrefl _ h3
  · refine iff_of_false (by decide) ?_
    intro h
    rw [h] at h4
    exact lt_irrefl _ h4
  · refine iff_of_true rfl (Vec2.ext_iff.mpr ?_)
    exact ⟨le_antisymm (not_lt.mp h2) (not_lt.mp h1), le_antisymm (not_lt.mp h4) (not_lt.mp h3)⟩

theorem Vec2.le_iff (a b : Vec2) : Vec2.le a b ↔ (Vec2.lt a b ∨ a = b) := by
  unfold Vec2.le Vec2.lt
  rw [ordering_ne_gt_iff, Vec2.spaceship_eq_iff]

theorem Vec2.not_lt_self (a : Vec2) : ¬ Vec2.lt a a := by
  rw [Vec2.lt_iff]
  rintro (h | ⟨_, h⟩) <;> exact lt_irrefl _ h

theorem Vec2.lt_asymm_lemma {a b : Vec2} (h : Vec2.lt a b) : ¬ Vec2.lt b a := by
  rw [Vec2.lt_iff] at h ⊢
  rintro (h2 | ⟨hx2, hy2⟩)
  · rcases h with h | ⟨hx, _⟩
    · exact lt_asymm h h2
    · rw [hx] at h2
      exact lt_irrefl _ h2
  · rcases h with h | ⟨_, hy⟩
    · rw [hx2] at h
      exact lt_irrefl _ h
    · exact lt_asymm hy hy2

theorem Vec2.lt_total_lemma (a b : Vec2) : Vec2.lt a b ∨ a = b ∨ Vec2.lt b a := by
  rw [Vec2.lt_iff, Vec2.lt_iff, Vec2.ext_iff]
  rcases lt_trichotomy a.x b.x with hx | hx | hx
  · exact Or.inl (Or.inl hx)
  · rcases lt_trichotomy a.y b.y with hy | hy | hy
    · exact Or.inl (Or.inr ⟨hx, hy⟩)
    · exact Or.inr (Or.inl ⟨hx, hy⟩)
    · exact Or.inr (Or.inr (Or.inr ⟨hx.symm, hy⟩))
  · exact Or.inr (Or.inr (Or.inl hx))

/-- C2: the defaulted comparisons are lexicographic on `(x, y)` —
`a < b` iff `a.x < b.x` or (`a.x = b.x` and `a.y < b.y`), with `<=`,
`>`, `>=` the corresponding non-strict/flipped relations — and the order
is total and consistent with equality: it is transitive, equal vectors
are incomparable by `<`, and for every pair exactly one of `a < b`,
`a = b`, `b < a` holds. -/
theorem vec2_order_lexicographic :
    (∀ a b : Vec2, Vec2.lt a b ↔ (a.x < b.x ∨ (a.x = b.x ∧ a.y < b.y))) ∧
    (∀ a b : Vec2, Vec2.le a b ↔ (Vec2.lt a b ∨ a = b)) ∧
    (∀ a b : Vec2, Vec2.gt a b ↔ Vec2.lt b a) ∧
    (∀ a b : Vec2, Vec2.ge a b ↔ (Vec2.lt b a ∨ a = b)) ∧
    (∀ a b c : Vec2, Vec2.lt a b → Vec2.lt b c → Vec2.lt a c) ∧
    (∀ a b : Vec2, a = b → ¬ Vec2.lt a b ∧ ¬ Vec2.lt b a) ∧
    (∀ a b : Vec2,
      (Vec2.lt a b ∧ ¬ a = b ∧ ¬ Vec2.lt b a) ∨
      (¬ Vec2.lt a b ∧ a = b ∧ ¬ Vec2.lt b a) ∨
      (¬ Vec2.lt a b ∧ ¬ a = b ∧ Vec2.lt b a)) := by
  refine ⟨Vec2.lt_iff, Vec2.le_iff, Vec2.gt_iff, ?_, ?_, ?_, ?_⟩
  · intro a b
    unfold Vec2.ge
    constructor
    · intro h
      rcases Vec2.lt_total_lemma a b with hl | he | hg
      · exact absurd hl h
      · exact Or.inr he
      · exact Or.inl hg
    · rintro (h | rfl) <;> intro hc
      · exact Vec2.lt_asymm_lemma h hc
      · exact Vec2.not_lt_self a hc
  · intro a b c hab hbc
    rw [Vec2.lt_iff] at hab hbc ⊢
    rcases hab with h | ⟨hx, hy⟩
    · rcases hbc with h2 | ⟨hx2, hy2⟩
      · exact Or.inl (lt_trans h h2)
      · exact Or.inl (hx2 ▸ h)
    · rcases hbc with h2 | ⟨hx2, hy2⟩
      · refine Or.inl ?_
        rw [hx]
        exact h2
      · exact Or.inr ⟨hx.trans hx2, lt_trans hy hy2⟩
  · rintro a b rfl
    exact ⟨Vec2.not_lt_self a, Vec2.not_lt_self a⟩
  · intro a b
    rcases Vec2.lt_total_lemma a b with hl | he | hg
    · refine Or.inl ⟨hl, ?_, Vec2.lt_asymm_lemma hl⟩
      rintro rfl
      exact Vec2.not_lt_self a hl
    · subst he
      exact Or.inr (Or.inl ⟨Vec2.not_lt_self a, rfl, Vec2.not_lt_self a⟩)
    · refine Or.inr (Or.inr ⟨Vec2.lt_asymm_lemma hg, ?_, hg⟩)
      rintro rfl
      exact Vec2.not_lt_self a hg

/-- Witness for C2 at the concrete vectors `(1, 2)` and `(2, 3)`. -/
theorem vec2_order_lexicographic_witness :
    Vec2.lt (Vec2.mk 1 2) (Vec2.mk 2 3) ∧ ¬ Vec2.lt (Vec2.mk 1 2) (Vec2.mk 1 2) := by
  have h1 : Vec2.lt (Vec2.mk 1 2) (Vec2.mk 2 3) := by
    refine (vec2_order_lexicographic.1 (Vec2.mk 1 2) (Vec2.mk 2 3)).mpr (Or.inl ?_)
    show (1 : ℝ) < 2
    norm_num
  have h2 :=
    (vec2_order_lexicographic.2.2.2.2.2.1 (Vec2.mk 1 2) (Vec2.mk 1 2) rfl).1
  exact ⟨h1, h2⟩

/-- C1: `normalized()` is total: on the zero vector it returns the zero
vector, and on every vector of non-zero length it returns the vector
divided by its length, whose length is within `1e-9` of `1` (in the real
model it is exactly `1`). -/
theorem vec2_normalized_correct :
    Vec2.normalized (Vec2.mk 0 0) = Vec2.mk 0 0 ∧
    ∀ v : Vec2, Vec2.length v ≠ 0 →
      Vec2.normalized v = Vec2.sdiv v (Vec2.length v) ∧
      |Vec2.length (Vec2.normalized v) - 1| ≤ 1e-9 := by
  constructor
  · have h0 : Vec2.length (Vec2.mk 0 0) = 0 := by
      unfold Vec2.length
      simp
    unfold Vec2.normalized
    rw [h0]
    rw [if_neg (lt_irrefl (0 : ℝ))]
  · intro v h
    have hpos : 0 < Vec2.length v := lt_of_le_of_ne (Vec2.length_nonneg v) (Ne.symm h)
    have hnorm : Vec2.normalized v = Vec2.sdiv v (Vec2.length v) := by
      unfold Vec2.normalized
      exact if_pos hpos
    refine ⟨hnorm, ?_⟩
    have hsqnn : 0 ≤ v.x * v.x + v.y * v.y := by
      nlinarith [mul_self_nonneg v.x, mul_self_nonneg v.y]
    have hsq : v.x * v.x + v.y * v.y ≠ 0 := by
      intro hc
      apply h
      unfold Vec2.length
      rw [hc, Real.sqrt_zero]
    have hmul : Vec2.length v * Vec2.length v = v.x * v.x + v.y * v.y :=
      Real.mul_self_sqrt hsqnn
    rw [hnorm]
    have h1 : Vec2.length (Vec2.sdiv v (Vec2.length v)) = 1 := by
      show Real.sqrt (v.x / Vec2.length v * (v.x / Vec2.length v) +
        v.y / Vec2.length v * (v.y / Vec2.length v)) = 1
      rw [show v.x / Vec2.length v * (v.x / Vec2.length v) +
            v.y / Vec2.length v * (v.y / Vec2.length v) =
            (v.x * v.x + v.y * v.y) / (Vec2.length v * Vec2.length v) by ring]
      rw [hmul, div_self hsq, Real.sqrt_one]
    rw [h1]
    norm_num

/-- Witness for C1 at the concrete vector `(3, 4)` of length `5`. -/
theorem vec2_normalized_correct_witness :
    Vec2.length (Vec2.mk 3 4) ≠ 0 ∧
    Vec2.normalized (Vec2.mk 3 4) = Vec2.sdiv (Vec2.mk 3 4) (Vec2.length (Vec2.mk 3 4)) ∧
    |Vec2.length (Vec2.normalized (Vec2.mk 3 4)) - 1| ≤ 1e-9 := by
  have h5 : Vec2.length (Vec2.mk 3 4) = 5 := by
    unfold Vec2.length
    rw [show ((Vec2.mk 3 4).x * (Vec2.mk 3 4).x +
      (Vec2.mk 3 4).y * (Vec2.mk 3 4).y : ℝ) = 5 ^ 2 by norm_num]
    exact Real.sqrt_sq (by norm_num)
  have h : Vec2.length (Vec2.mk 3 4) ≠ 0 := by
    rw [h5]
    norm_num
  exact ⟨h, vec2_normalized_correct.2 (Vec2.mk 3 4) h⟩

/-- C5: the defaulted `operator==` is structural and componentwise (it
coincides with propositional equality of the values), and is an
equivalence relation: reflexive, symmetric and transitive. -/
theorem vec2_eq_structural :
    (∀ a b : Vec2, Vec2.eqOp a b ↔ (a.x = b.x ∧ a.y = b.y)) ∧
    (∀ a b : Vec2, Vec2.eqOp a b ↔ a = b) ∧
    (∀ a : Vec2, Vec2.eqOp a a) ∧
    (∀ a b : Vec2, Vec2.eqOp a b → Vec2.eqOp b a) ∧
    (∀ a b c : Vec2, Vec2.eqOp a b → Vec2.eqOp b c → Vec2.eqOp a c) := by
  refine ⟨fun a b => Iff.rfl, fun a b => Vec2.ext_iff.symm, fun a => ⟨rfl, rfl⟩, ?_, ?_⟩
  · rintro a b ⟨hx, hy⟩
    exact ⟨hx.symm, hy.symm⟩
  · rintro a b c ⟨hx, hy⟩ ⟨hx2, hy2⟩
    exact ⟨hx.trans hx2, hy.trans hy2⟩

/-- Witness for C5: transitivity applied at the concrete vector `(1, 2)`. -/
theorem vec2_eq_structural_witness :
    Vec2.eqOp (Vec2.mk 1 2) (Vec2.mk 1 2) :=
  vec2_eq_structural.2.2.2.2 (Vec2.mk 1 2) (Vec2.mk 1 2) (Vec2.mk 1 2)
    ⟨rfl, rfl⟩ ⟨rfl, rfl⟩

/-- C8: `cross` returns `x*o.y − y*o.x`, with
`cross((1,0),(0,1)) = 1`, `cross((0,1),(1,0)) = −1`, and value `0`
whenever either vector is zero or the vectors are parallel (one a scalar
multiple of the other). -/
theorem vec2_cross_correct :
    ∀ a b : Vec2, Vec2.cross a b = a.x * b.y - a.y * b.x ∧
      Vec2.cross (Vec2.mk 1 0) (Vec2.mk 0 1) = 1 ∧
      Vec2.cross (Vec2.mk 0 1) (Vec2.mk 1 0) = -1 ∧
      (a = Vec2.mk 0 0 ∨ b = Vec2.mk 0 0 → Vec2.cross a b = 0) ∧
      (∀ t : ℝ, b = Vec2.smul a t ∨ a = Vec2.smul b t → Vec2.cross a b = 0) := by
  intro a b
  refine ⟨rfl, by norm_num [Vec2.cross], by norm_num [Vec2.cross], ?_, ?_⟩
  · rintro (rfl | rfl) <;> simp [Vec2.cross]
  · rintro t (rfl | rfl) <;>
      · simp only [Vec2.cross, Vec2.smul]
        ring

/-- Witness for C8: the parallel case at `(1, 2)` and `(2, 4) = (1, 2) * 2`. -/
theorem vec2_cross_correct_witness :
    Vec2.cross (Vec2.mk 1 2) (Vec2.mk 2 4) = 0 := by
  refine (vec2_cross_correct (Vec2.mk 1 2) (Vec2.mk 2 4)).2.2.2.2 2 (Or.inl ?_)
  rw [Vec2.ext_iff]
  simp only [Vec2.smul]
  norm_num

/-- C9: `distance_to` and `distance_sq_to` are symmetric, and
`distance_to` is zero exactly when the two vectors are equal (in
particular `a.distance_to(a) = 0`). -/
theorem vec2_distance_correct :
    ∀ a b : Vec2, Vec2.distance_to a b = Vec2.distance_to b a ∧
      Vec2.distance_sq_to a b = Vec2.distance_sq_to b a ∧
      (Vec2.distance_to a b = 0 ↔ a = b) ∧
      Vec2.distance_to a a = 0 := by
  have hself : ∀ a : Vec2, Vec2.distance_to a a = 0 := by
    intro a
    unfold Vec2.distance_to Vec2.length Vec2.sub
    simp
  intro a b
  refine ⟨?_, ?_, ⟨?_, ?_⟩, hself a⟩
  · unfold Vec2.distance_to Vec2.length Vec2.sub
    rw [show (a.x - b.x) * (a.x - b.x) + (a.y - b.y) * (a.y - b.y) =
      (b.x - a.x) * (b.x - a.x) + (b.y - a.y) * (b.y - a.y) by ring]
  · unfold Vec2.distance_sq_to Vec2.length_sq Vec2.sub
    ring
  · intro h
    have hs : (a.x - b.x) * (a.x - b.x) + (a.y - b.y) * (a.y - b.y) ≤ 0 := by
      have := Real.sqrt_eq_zero'.mp h
      exact this
    have h1 : (a.x - b.x) * (a.x - b.x) = 0 := by
      nlinarith [mul_self_nonneg (a.x - b.x), mul_self_nonneg (a.y - b.y)]
    have h2 : (a.y - b.y) * (a.y - b.y) = 0 := by
      nlinarith [mul_self_nonneg (a.x - b.x), mul_self_nonneg (a.y - b.y)]
    rw [Vec2.ext_iff]
    constructor
    · have := mul_self_eq_zero.mp h1
      linarith
    · have := mul_self_eq_zero.mp h2
      linarith
  · intro h
    rw [h]
    exact hself b

/-- C10: every compound assignment operator leaves the receiver equal to
the value of the corresponding pure operator applied to the old receiver,
and returns (a reference to) the receiver itself. -/
theorem vec2_compound_assign_correct :
    ∀ (a b : Vec2) (s : ℝ),
      (Vec2.addAssign a b).1 = Vec2.add a b ∧ (Vec2.addAssign a b).2 = (Vec2.addAssign a b).1 ∧
      (Vec2.subAssign a b).1 = Vec2.sub a b ∧ (Vec2.subAssign a b).2 = (Vec2.subAssign a b).1 ∧
      (Vec2.mulAssign a s).1 = Vec2.smul a s ∧ (Vec2.mulAssign a s).2 = (Vec2.mulAssign a s).1 ∧
      (Vec2.divAssign a s).1 = Vec2.sdiv a s ∧ (Vec2.divAssign a s).2 = (Vec2.divAssign a s).1 := by
  intro a b s
  exact ⟨rfl, rfl, rfl, rfl, rfl, rfl, rfl, rfl⟩

end sim
